import Mathlib

set_option maxHeartbeats 1000000

/-!
Verification development for the `dvdcopy` copy engine (`src/dvdcopy.cc`).

The development shallowly embeds the parts of `DVDCopy` that the checked
properties concern:

* the copy loop of `DVDCopy::copyFile` (resume check, duplicate hardlinking,
  sequence-number coalescing, chunked read loop with skip-on-failure),
* the bad-sector ledger (`DVDCopy::openBadSectorsFile`,
  `DVDCopy::registerBadSectors`, `DVDCopy::readBadSectors`,
  `DVDCopy::findFile`),
* the repair loop of `DVDCopy::secondPass`.

External collaborators (libdvdread streams, the output file, the POSIX
filesystem) are modelled as parameters: the block reader is an oracle
`Int → Int → Int` mirroring `DVDFile::readBlocks` (negative result = error),
the output file is a trace of write/skip events, and the filesystem for the
hardlink logic is a finite map from paths to inode numbers.  C `int` values
are modelled as `Int` (no arithmetic here approaches 2^31, so wrap-around is
irrelevant); C strings are modelled as `List Char`.
-/

namespace DVDCopy

/-- Model of a path / C string (`std::string`). -/
abbrev Path := List Char

/-- Model of `DVDFileData` (dvdreader.hh): identity triple
`(title, domain, number)`, the derived output file name (`fileName()`), and
the `dup` pointer.  The only use `dvdcopy.cc` makes of `dup` is
`dat->dup->fileName()`, so the pointer is modelled by the duplicate's file
name. -/
structure DVDFileData where
  title : Nat
  domain : Nat
  number : Nat
  name : Path
  dupName : Option Path
deriving DecidableEq

/-- Decimal digit character, as printed by `fprintf("%d")` for one digit. -/
def digitChar (n : Nat) : Char :=
  match n with
  | 0 => '0' | 1 => '1' | 2 => '2' | 3 => '3' | 4 => '4'
  | 5 => '5' | 6 => '6' | 7 => '7' | 8 => '8' | 9 => '9'
  | _ => '*'

/-- Numeric value of a digit character (as `atoi` accumulates it). -/
def digitVal (c : Char) : Nat := c.toNat - 48

/-- Fuel-indexed decimal printer (the fuel makes it structurally
recursive; `natDigits` below supplies enough fuel). -/
def natDigitsAux : Nat → Nat → List Char
  | 0, _ => []
  | fuel + 1, n =>
    if n < 10 then [digitChar n]
    else natDigitsAux fuel (n / 10) ++ [digitChar (n % 10)]

/-- Decimal representation of a `Nat`, as `fprintf("%d")` prints a
nonnegative `int` in `DVDCopy::registerBadSectors`. -/
def natDigits (n : Nat) : List Char := natDigitsAux (n + 1) n

/-- Value of a digit string, as `atoi` reads it in `DVDCopy::readBadSectors`. -/
def digitsVal (ds : List Char) : Nat :=
  ds.foldl (fun a c => 10 * a + digitVal c) 0

/-- The ledger line written by `DVDCopy::registerBadSectors`:
`fprintf(badSectors, "%s: %d,%d,%d  %d (%d)\n", name, title, domain, number,
beg, size)`.  The terminating newline is left implicit: the ledger file is
modelled as a list of newline-terminated lines. -/
def recordLine (dat : DVDFileData) (beg count : Nat) : List Char :=
  dat.name ++ [':', ' '] ++ natDigits dat.title ++ [','] ++ natDigits dat.domain
    ++ [','] ++ natDigits dat.number ++ [' ', ' '] ++ natDigits beg
    ++ [' ', '('] ++ natDigits count ++ [')']

/-- Skip blanks, as the regex pieces `" *"` do. -/
def dropSpaces : List Char → List Char
  | [] => []
  | c :: r => if c = ' ' then dropSpaces r else c :: r

/-- Greedily take leading digit characters (a `"[0-9]+"` group). -/
def takeDigits : List Char → List Char × List Char
  | [] => ([], [])
  | c :: r =>
    if c.isDigit then
      let p := takeDigits r
      (c :: p.1, p.2)
    else ([], c :: r)

/-- Parse one `"[0-9]+"` group and convert it with `atoi`. -/
def parseNat1 (cs : List Char) : Option (Nat × List Char) :=
  let p := takeDigits cs
  if p.1 = [] then none else some (digitsVal p.1, p.2)

/-- Require one literal character. -/
def expectChar (c : Char) : List Char → Option (List Char)
  | [] => none
  | x :: r => if x = c then some r else none

/-- The part of the `readBadSectors` regex after the colon:
`" *([0-9]+),([0-9]+),([0-9]+) *([0-9]+) *\(([0-9]+)\)"`.  Trailing
characters after the closing parenthesis (the newline) are ignored, as
`regexec` ignores them. -/
def parseAfterColon (cs : List Char) : Option (Nat × Nat × Nat × Nat × Nat) :=
  match parseNat1 (dropSpaces cs) with
  | none => none
  | some (t, cs) =>
  match expectChar ',' cs with
  | none => none
  | some cs =>
  match parseNat1 cs with
  | none => none
  | some (d, cs) =>
  match expectChar ',' cs with
  | none => none
  | some cs =>
  match parseNat1 cs with
  | none => none
  | some (n, cs) =>
  match parseNat1 (dropSpaces cs) with
  | none => none
  | some (b, cs) =>
  match expectChar '(' (dropSpaces cs) with
  | none => none
  | some cs =>
  match parseNat1 cs with
  | none => none
  | some (sz, cs) =>
  match expectChar ')' cs with
  | none => none
  | some _ => some (t, d, n, b, sz)

/-- Split a line at its first colon (the `"[^:]+:"` prefix of the regex:
the character class cannot cross a colon, so the name group runs to the
first colon of the line). -/
def splitAtColon : List Char → Option (List Char × List Char)
  | [] => none
  | c :: r =>
    if c = ':' then some ([], r)
    else
      match splitAtColon r with
      | none => none
      | some p => some (c :: p.1, p.2)

/-- Embedding of the `regexec` match in `DVDCopy::readBadSectors` against
`"[^:]+: *([0-9]+),([0-9]+),([0-9]+) *([0-9]+) *\(([0-9]+)\)"`, for lines
with a single colon and blank-separated fields — the shape every line
written by `registerBadSectors` has. -/
def parseBadLine (cs : List Char) : Option (Nat × Nat × Nat × Nat × Nat) :=
  match splitAtColon cs with
  | none => none
  | some p => if p.1 = [] then none else parseAfterColon p.2

/-- Model of the `BadSectors` entries held in `DVDCopy::badSectorsList`:
the resolved descriptor, start block and block count. -/
structure BadSectors where
  file : DVDFileData
  start : Nat
  number : Nat
deriving DecidableEq

/-- Diagnostics printed to `stderr` while loading the ledger: a line that
does not match the regex, or a parsed identity with no catalog match. -/
inductive Diag where
  | parseError (line : List Char)
  | noMatch (t d n : Nat)
deriving DecidableEq

/-- Model of `DVDCopy::findFile`: scan `files` in order for the first
descriptor with the exact identity triple.  The C function returns the
index and the caller immediately reads `files[idx]`; the model returns the
element. -/
def findFile (files : List DVDFileData) (t d n : Nat) : Option DVDFileData :=
  files.find? (fun f => decide (f.title = t) && decide (f.domain = d) &&
    decide (f.number = n))

/-- One iteration body of the `readBadSectors` parse loop: match the
buffer against the regex, then resolve the identity against the catalog.
Either appends one `BadSectors` entry or reports one diagnostic. -/
def processLine (files : List DVDFileData) (line : List Char) :
    List BadSectors × List Diag :=
  match parseBadLine line with
  | none => ([], [Diag.parseError line])
  | some (t, d, n, b, sz) =>
    match findFile files t d n with
    | none => ([], [Diag.noMatch t d n])
    | some f => ([{ file := f, start := b, number := sz }], [])

/-- The `while(!feof(badSectors))` loop of `DVDCopy::readBadSectors`.
`feof` only becomes true after `fgets` has hit end-of-file, and the code
does not test the return value of `fgets`; so after the last line is read
the loop runs once more on the unchanged buffer.  The second argument is
the current content of `buffer`. -/
def readLoop (files : List DVDFileData) :
    List (List Char) → List Char → List BadSectors × List Diag
  | [], buf => processLine files buf
  | l :: rest, _ =>
    let p := processLine files l
    let q := readLoop files rest l
    (p.1 ++ q.1, p.2 ++ q.2)

/-- Model of `DVDCopy::readBadSectors`: `none` is an absent ledger file
(`fopen` fails, the function returns with no entries — the success case);
otherwise parse every line.  `buffer` is modelled as initially empty. -/
def readBadSectors (files : List DVDFileData) :
    Option (List (List Char)) → List BadSectors × List Diag
  | none => ([], [])
  | some lines => readLoop files lines []

/-- Mode of the process-wide `FILE * badSectors` handle. -/
inductive LMode where
  | closed
  | readMode
  | appendMode
deriving DecidableEq

/-- Process state around the ledger: the handle, whether the `.bad` file
exists, its lines, and the in-memory `badSectorsList`. -/
structure LedgerState where
  mode : LMode
  filePresent : Bool
  fileLines : List (List Char)
  badSectorsList : List BadSectors
deriving DecidableEq

/-- Fresh-process ledger state with no `.bad` file on disk. -/
def ledgerInit : LedgerState :=
  { mode := LMode.closed, filePresent := false, fileLines := [],
    badSectorsList := [] }

/-- Model of `DVDCopy::openBadSectorsFile`: `fopen` the `.bad` file in the
requested mode only when the handle is still `NULL`; otherwise the request
(and in particular the requested mode) is ignored.  `fopen("a")` creates
the file; `fopen("r")` on an absent file fails, leaving the handle `NULL`. -/
def openBadSectorsFile (st : LedgerState) (m : LMode) : LedgerState :=
  if st.mode = LMode.closed then
    match m with
    | LMode.appendMode =>
      { st with mode := LMode.appendMode, filePresent := true }
    | LMode.readMode =>
      if st.filePresent then { st with mode := LMode.readMode } else st
    | LMode.closed => st
  else st

/-- Model of `DVDCopy::registerBadSectors`: open the ledger in append mode
(a no-op when the handle is already open, whatever its mode), `fprintf` one
line and `fflush`, then push the entry onto `badSectorsList`.  Writing to a
handle that is open in read mode fails and appends nothing. -/
def registerBadSectors (st : LedgerState) (dat : DVDFileData)
    (beg count : Nat) : LedgerState :=
  let st1 := openBadSectorsFile st LMode.appendMode
  let st2 :=
    if st1.mode = LMode.appendMode then
      { st1 with fileLines := st1.fileLines ++ [recordLine dat beg count] }
    else st1
  { st2 with
    badSectorsList := st2.badSectorsList ++
      [{ file := dat, start := beg, number := count }] }

/-- Model of the stateful entry point `DVDCopy::readBadSectors`: open the
ledger in read mode; when the handle is `NULL` (absent file) return with the
list unchanged, otherwise append every parsed-and-resolved record. -/
def readBadSectorsRun (files : List DVDFileData) (st : LedgerState) :
    LedgerState :=
  let st1 := openBadSectorsFile st LMode.readMode
  if st1.mode = LMode.readMode then
    { st1 with
      badSectorsList := st1.badSectorsList ++
        (readLoop files st1.fileLines []).1 }
  else st1

/-- The ledger file as `readBadSectors` finds it on disk. -/
def ledgerFileOf (st : LedgerState) : Option (List (List Char)) :=
  if st.filePresent then some st.fileLines else none

/-- Filesystem model for the hardlink logic: a finite map from paths to
inode numbers. -/
abbrev FS := List (Path × Nat)

/-- Model of `stat`: the inode number of a path, `none` when `stat` fails. -/
def statIno (fs : FS) (p : Path) : Option Nat :=
  match fs.find? (fun e => decide (e.1 = p)) with
  | none => none
  | some e => some e.2

/-- Model of `link(source, target)`: creates `target` as a new name for
`source`'s inode when `source` exists and `target` does not; otherwise it
fails and changes nothing.  `copyFile` ignores its return value. -/
def linkFS (fs : FS) (source target : Path) : FS :=
  match statIno fs source with
  | none => fs
  | some ino =>
    match statIno fs target with
    | some _ => fs
    | none => (target, ino) :: fs

/-- One call on the output file: `DVDOutFile::writeSectors` with the number
of blocks actually read, or `DVDOutFile::skipSectors` with the requested
chunk size. -/
inductive OutEvent where
  | write (n : Int)
  | skip (n : Int)
deriving DecidableEq

/-- The two `throw std::runtime_error` sites of the duplicate branch of
`DVDCopy::copyFile` (the spec's `IntegrityConflict`): the hardlink target
is absent, or the destination exists and is not the expected link. -/
inductive CopyError where
  | linkTargetAbsent (target source : Path)
  | notExpectedLink (target source : Path)
deriving DecidableEq

/-- State of the `while(size > 0)` loop in `DVDCopy::copyFile`, together
with the traces the properties talk about: the `readBlocks` calls issued
(`(blk, nb)` pairs), the output events, and the `registerBadSectors`
invocations (`(beg, size)` pairs). -/
structure LoopState where
  size : Int
  blk : Int
  skipped : Int
  reads : List (Int × Int)
  outEvents : List OutEvent
  recs : List (Int × Int)
deriving DecidableEq

/-- One iteration of the copy loop: pick `nb = min(size, readNumber)`,
call `readBlocks(blk, nb)`; on a negative result skip `nb` sectors in the
output, register the bad range and count it as skipped (`read = nb`);
otherwise write the blocks read.  Either way `size -= read; blk += read`. -/
def copyStep (oracle : Int → Int → Int) (readNumber : Int)
    (s : LoopState) : LoopState :=
  let nb : Int := if s.size > readNumber then readNumber else s.size
  let r := oracle s.blk nb
  if r < 0 then
    { size := s.size - nb, blk := s.blk + nb, skipped := s.skipped + nb,
      reads := s.reads ++ [(s.blk, nb)],
      outEvents := s.outEvents ++ [OutEvent.skip nb],
      recs := s.recs ++ [(s.blk, nb)] }
  else
    { size := s.size - r, blk := s.blk + r, skipped := s.skipped,
      reads := s.reads ++ [(s.blk, nb)],
      outEvents := s.outEvents ++ [OutEvent.write r],
      recs := s.recs }

/-- The `while(size > 0)` loop.  The fuel argument only bounds the number
of iterations; whenever every iteration advances by at least one block
(which every theorem below hypothesises), fuel `size.toNat` makes the model
agree with the C loop.  (With a reader that keeps returning `0` the C loop
would not terminate at all.) -/
def copyLoop (oracle : Int → Int → Int) (readNumber : Int) :
    Nat → LoopState → LoopState
  | 0, s => s
  | fuel + 1, s =>
    if s.size > 0 then copyLoop oracle readNumber fuel (copyStep oracle readNumber s)
    else s

/-- The collaborators `DVDCopy::copyFile` works against: the filesystem
(for the hardlink branch), the target directory prefix, the source opener
`DVDFile::openFile` + `DVDFile::fileSize` (`none` when the source cannot be
opened), the output file's current size `DVDOutFile::fileSize`, and the
block-read oracle `DVDFile::readBlocks`. -/
structure CopyEnv where
  fs : FS
  targetDirectory : Path
  sourceSize : Nat → Nat → Option Int
  outSize : Nat → Nat → Int
  oracle : Int → Int → Int

/-- Observable outcome of one `copyFile` call: the returned skip count,
the filesystem afterwards, the `(title, domain)` pairs for which a source
open was attempted, the `readBlocks` calls, the output events, and the
`registerBadSectors` invocations `(dat, beg, size)`. -/
structure CopyOutcome where
  ret : Int
  fs : FS
  opens : List (Nat × Nat)
  reads : List (Int × Int)
  outEvents : List OutEvent
  recs : List (DVDFileData × Int × Int)
deriving DecidableEq

/-- Embedding of `DVDCopy::copyFile(dat, firstBlock, blockNumber,
readNumber)` (dvdcopy.cc:54-197).  Mirrors the source structure: default
`readNumber` of `BUF_BLOCK_SIZE = 128`; the duplicate branch; the
`number > 1` coalescing branch; the unopenable-source skip; the
`current_size == size` completeness check (`firstBlock`, when positive,
replaces the output size in that check and nothing else); then the chunked
read loop starting at `blk = 0`.  The `blockNumber` parameter is unused in
the source body, and is unused here. -/
def copyFile (env : CopyEnv) (dat : DVDFileData)
    (firstBlock _blockNumber readNumber : Int) : Except CopyError CopyOutcome :=
  let readNumber := if readNumber < 0 then 128 else readNumber
  match dat.dupName with
  | some dupName =>
    let source := env.targetDirectory ++ dupName
    let target := env.targetDirectory ++ dat.name
    (match statIno env.fs target with
     | none =>
       Except.ok { ret := 0, fs := linkFS env.fs source target,
                   opens := [], reads := [], outEvents := [], recs := [] }
     | some st =>
       match statIno env.fs source with
       | none => Except.error (CopyError.linkTargetAbsent target source)
       | some stold =>
         if stold ≠ st then
           Except.error (CopyError.notExpectedLink target source)
         else
           Except.ok { ret := 0, fs := env.fs, opens := [], reads := [],
                       outEvents := [], recs := [] })
  | none =>
    if dat.number > 1 then
      Except.ok { ret := 0, fs := env.fs, opens := [], reads := [],
                  outEvents := [], recs := [] }
    else
      match env.sourceSize dat.title dat.domain with
      | none =>
        Except.ok { ret := 0, fs := env.fs, opens := [(dat.title, dat.domain)],
                    reads := [], outEvents := [], recs := [] }
      | some size =>
        let currentSize := if firstBlock > 0 then firstBlock
                           else env.outSize dat.title dat.domain
        if currentSize = size then
          Except.ok { ret := 0, fs := env.fs,
                      opens := [(dat.title, dat.domain)],
                      reads := [], outEvents := [], recs := [] }
        else
          let final := copyLoop env.oracle readNumber size.toNat
            { size := size, blk := 0, skipped := 0,
              reads := [], outEvents := [], recs := [] }
          Except.ok { ret := final.skipped, fs := env.fs,
                      opens := [(dat.title, dat.domain)],
                      reads := final.reads, outEvents := final.outEvents,
                      recs := final.recs.map (fun r => (dat, r.1, r.2)) }

/-- Total number of blocks the output file receives from a trace of
write/skip events. -/
def outBlocks : List OutEvent → Int
  | [] => 0
  | OutEvent.write n :: r => n + outBlocks r
  | OutEvent.skip n :: r => n + outBlocks r

/-- Total number of blocks requested across a list of read calls. -/
def sumCalls : List (Int × Int) → Int
  | [] => 0
  | c :: r => c.2 + sumCalls r

/-- The read calls form a gapless chain of positive-length requests
starting at `a`. -/
def contiguous : Int → List (Int × Int) → Bool
  | _, [] => true
  | a, c :: r => decide (c.1 = a) && decide (0 < c.2) && contiguous (a + c.2) r

/-- Block `b` is covered by some read call of the list. -/
def callsCover (calls : List (Int × Int)) (b : Int) : Bool :=
  calls.any (fun c => decide (c.1 ≤ b) && decide (b < c.1 + c.2))

/-- Whether a read call failed under the given oracle. -/
def failedCall (oracle : Int → Int → Int) (c : Int × Int) : Bool :=
  decide (oracle c.1 c.2 < 0)

/-- The output event a read call produces: a skip of the full requested
chunk on failure, otherwise a write of the blocks read. -/
def eventOf (oracle : Int → Int → Int) (c : Int × Int) : OutEvent :=
  if oracle c.1 c.2 < 0 then OutEvent.skip c.2 else OutEvent.write (oracle c.1 c.2)

/-- The `for(i = 0; i < badSectorsList.size(); i++)` loop of
`DVDCopy::secondPass`: process entry `i`, invoking
`copyFile(bs.file, bs.start, bs.number, 1)`; entries pushed by
`registerBadSectors` during the call extend the list being iterated.
Returns the invocations made (descriptor and the three int arguments), the
accumulated `totalMissing`, and the final list.  A thrown error aborts the
pass. -/
def secondPassLoop (env : CopyEnv) :
    Nat → List BadSectors → Nat → Int →
    List (DVDFileData × Int × Int × Int) →
    List (DVDFileData × Int × Int × Int) × Int × List BadSectors
  | 0, list, _, total, calls => (calls, total, list)
  | fuel + 1, list, i, total, calls =>
    if h : i < list.length then
      let bs := list.get ⟨i, h⟩
      let calls1 := calls ++ [(bs.file, (bs.start : Int), (bs.number : Int), 1)]
      match copyFile env bs.file (bs.start : Int) (bs.number : Int) 1 with
      | Except.error _ => (calls1, total, list)
      | Except.ok out =>
        secondPassLoop env fuel
          (list ++ out.recs.map
            (fun r => { file := r.1, start := r.2.1.toNat, number := r.2.2.toNat }))
          (i + 1) (total + out.ret) calls1
    else (calls, total, list)

/-- Model of `DVDCopy::secondPass` after setup: load the ledger, then run
the repair loop over the loaded records. -/
def secondPass (env : CopyEnv) (files : List DVDFileData)
    (ledger : Option (List (List Char))) (fuel : Nat) :
    List (DVDFileData × Int × Int × Int) × Int × List BadSectors :=
  secondPassLoop env fuel (readBadSectors files ledger).1 0 0 []

/-- Whether a character list starts with a digit (used to state where a
`"[0-9]+"` group must stop). -/
def headDigit : List Char → Bool
  | [] => false
  | c :: _ => c.isDigit

/-- Concrete one-file catalog entry (a 3-block stream) used by the
concrete evaluations below. -/
def vtsFile : DVDFileData :=
  { title := 1, domain := 0, number := 1, name := ['v'], dupName := none }

/-- Environment for the repair-range evaluation: `vtsFile`'s source is 3
blocks and now fully readable (`readBlocks` always returns the requested
count); the output file is currently empty. -/
def repairEnv : CopyEnv :=
  { fs := [], targetDirectory := [], sourceSize := fun _ _ => some 3,
    outSize := fun _ _ => 0, oracle := fun _ n => n }

/-- Process state at the start of a repair pass: the `.bad` ledger exists
on disk and holds the single record `(vtsFile, 0, 3)`. -/
def repairLedger : LedgerState :=
  { mode := LMode.closed, filePresent := true,
    fileLines := [recordLine vtsFile 0 3], badSectorsList := [] }

deriving instance DecidableEq for Except

/-! ### Decimal printing and the record-line round trip -/

/-- A decimal digit printed by `fprintf("%d")` is matched by `[0-9]`. -/
theorem digitChar_isDigit {d : Nat} (h : d < 10) : (digitChar d).isDigit = true := by
  interval_cases d <;> decide

/-- `atoi` inverts printing of a single digit. -/
theorem digitVal_digitChar {d : Nat} (h : d < 10) : digitVal (digitChar d) = d := by
  interval_cases d <;> decide

/-- Peeling the last digit off an `atoi` accumulation. -/
theorem digitsVal_append (l : List Char) (c : Char) :
    digitsVal (l ++ [c]) = 10 * digitsVal l + digitVal c := by
  unfold digitsVal
  rw [List.foldl_append]
  rfl

/-- With enough fuel, the decimal printer emits a nonempty all-digit
string whose `atoi` value is the printed number. -/
theorem natDigitsAux_spec :
    ∀ fuel n, n < fuel →
      digitsVal (natDigitsAux fuel n) = n ∧ natDigitsAux fuel n ≠ [] ∧
        ∀ c ∈ natDigitsAux fuel n, c.isDigit = true := by
  intro fuel
  induction fuel with
  | zero => intro n h; omega
  | succ fuel ih =>
    intro n h
    by_cases h10 : n < 10
    · simp only [natDigitsAux, if_pos h10]
      refine ⟨?_, by simp, ?_⟩
      · show digitsVal [digitChar n] = n
        unfold digitsVal
        simp [digitVal_digitChar h10]
      · intro c hc
        simp only [List.mem_singleton] at hc
        subst hc
        exact digitChar_isDigit h10
    · have hdiv : n / 10 < fuel := by omega
      obtain ⟨h1, h2, h3⟩ := ih (n / 10) hdiv
      simp only [natDigitsAux, if_neg h10]
      refine ⟨?_, by simp, ?_⟩
      · rw [digitsVal_append, h1, digitVal_digitChar (Nat.mod_lt _ (by omega))]
        omega
      · intro c hc
        rcases List.mem_append.1 hc with hc | hc
        · exact h3 c hc
        · simp only [List.mem_singleton] at hc
          subst hc
          exact digitChar_isDigit (Nat.mod_lt _ (by omega))

/-- `natDigits` is a nonempty all-digit string with `atoi` value `n`. -/
theorem natDigits_spec (n : Nat) :
    digitsVal (natDigits n) = n ∧ natDigits n ≠ [] ∧
      ∀ c ∈ natDigits n, c.isDigit = true :=
  natDigitsAux_spec (n + 1) n (Nat.lt_succ_self n)

/-- A `[0-9]+` group consumes exactly an all-digit prefix when what
follows does not start with a digit. -/
theorem takeDigits_append (ds rest : List Char)
    (hds : ∀ c ∈ ds, c.isDigit = true) (hrest : headDigit rest = false) :
    takeDigits (ds ++ rest) = (ds, rest) := by
  induction ds with
  | nil =>
    simp only [List.nil_append]
    cases rest with
    | nil => rfl
    | cons c r =>
      simp only [headDigit] at hrest
      simp [takeDigits, hrest]
  | cons d ds ih =>
    have hd : d.isDigit = true := hds d (by simp)
    have ih' := ih (fun c hc => hds c (by simp [hc]))
    simp [takeDigits, hd, ih']

/-- Parsing a printed number recovers it. -/
theorem parseNat1_natDigits (n : Nat) (rest : List Char)
    (hrest : headDigit rest = false) :
    parseNat1 (natDigits n ++ rest) = some (n, rest) := by
  obtain ⟨hval, hne, hdig⟩ := natDigits_spec n
  unfold parseNat1
  rw [takeDigits_append _ _ hdig hrest]
  simp [hne, hval]

/-- `" *"` consumes a blank. -/
theorem dropSpaces_cons_space (xs : List Char) :
    dropSpaces (' ' :: xs) = dropSpaces xs := by
  simp [dropSpaces]

/-- `" *"` stops at a digit. -/
theorem dropSpaces_of_headDigit (xs : List Char) (h : headDigit xs = true) :
    dropSpaces xs = xs := by
  cases xs with
  | nil => rfl
  | cons c r =>
    simp only [headDigit] at h
    have hc : ¬ c = ' ' := fun e => by subst e; exact absurd h (by decide)
    simp [dropSpaces, hc]

/-- A printed number starts with a digit. -/
theorem headDigit_natDigits_append (n : Nat) (rest : List Char) :
    headDigit (natDigits n ++ rest) = true := by
  obtain ⟨-, hne, hdig⟩ := natDigits_spec n
  cases h : natDigits n with
  | nil => exact absurd h hne
  | cons c r =>
    simp only [h, List.cons_append, headDigit]
    exact hdig c (by rw [h]; simp)

/-- A comma is not a digit. -/
theorem headDigit_comma (z : List Char) : headDigit (',' :: z) = false := rfl

/-- A blank is not a digit. -/
theorem headDigit_space (z : List Char) : headDigit (' ' :: z) = false := rfl

/-- A closing parenthesis is not a digit. -/
theorem headDigit_rparen (z : List Char) : headDigit (')' :: z) = false := rfl

/-- `" *"` stops at an opening parenthesis. -/
theorem dropSpaces_lparen (z : List Char) : dropSpaces ('(' :: z) = '(' :: z := by
  simp [dropSpaces]

/-- Matching one literal separator. -/
theorem expectChar_cons (c : Char) (xs : List Char) :
    expectChar c (c :: xs) = some xs := by
  simp [expectChar]

/-- The after-colon part of a `registerBadSectors` line matches the
after-colon part of the `readBadSectors` regex, group by group. -/
theorem parseAfterColon_record (t d n b sz : Nat) :
    parseAfterColon (' ' :: (natDigits t ++ ',' ::
      (natDigits d ++ ',' :: (natDigits n ++ ' ' :: ' ' ::
        (natDigits b ++ ' ' :: '(' :: (natDigits sz ++ [')'])))))) =
    some (t, d, n, b, sz) := by
  simp only [parseAfterColon, dropSpaces_cons_space, dropSpaces_lparen,
    dropSpaces_of_headDigit, parseNat1_natDigits, expectChar_cons,
    headDigit_natDigits_append, headDigit_comma, headDigit_space,
    headDigit_rparen]

/-- The name group of the regex splits a written line at its colon. -/
theorem splitAtColon_append (name rest : List Char) (h : ':' ∉ name) :
    splitAtColon (name ++ ':' :: rest) = some (name, rest) := by
  induction name with
  | nil => simp [splitAtColon]
  | cons c cs ih =>
    have hc : ¬ c = ':' := fun e => h (by simp [e])
    have ih' := ih (fun m => h (List.mem_cons_of_mem _ m))
    simp [splitAtColon, hc, ih']

/-- Round trip: a line written by `registerBadSectors` is matched by the
`readBadSectors` regex and parses back to the identity triple, start and
count that were written (for a nonempty, colon-free file name — every
actual `fileName()` satisfies this). -/
theorem parseBadLine_recordLine (dat : DVDFileData) (b sz : Nat)
    (hne : dat.name ≠ []) (hcol : ':' ∉ dat.name) :
    parseBadLine (recordLine dat b sz) =
      some (dat.title, dat.domain, dat.number, b, sz) := by
  have hform : recordLine dat b sz = dat.name ++ ':' ::
      (' ' :: (natDigits dat.title ++ ',' ::
        (natDigits dat.domain ++ ',' :: (natDigits dat.number ++ ' ' :: ' ' ::
          (natDigits b ++ ' ' :: '(' :: (natDigits sz ++ [')'])))))) := by
    simp [recordLine]
  unfold parseBadLine
  rw [hform]
  simp only [splitAtColon_append _ _ hcol]
  rw [if_neg hne]
  exact parseAfterColon_record _ _ _ _ _

/-! ### Loading the ledger -/

/-- Closed form of the `readBadSectors` loop: every line is processed in
order, and — because `feof` is tested before the failing final `fgets`,
whose `NULL` return is ignored — the last line read (or the initial buffer
for an empty file) is processed a second time. -/
theorem readLoop_spec (files : List DVDFileData) (lines : List (List Char)) :
    ∀ buf, readLoop files lines buf =
      ((lines.flatMap (fun l => (processLine files l).1)) ++
         (processLine files (lines.getLastD buf)).1,
       (lines.flatMap (fun l => (processLine files l).2)) ++
         (processLine files (lines.getLastD buf)).2) := by
  induction lines with
  | nil => intro buf; simp [readLoop, List.getLastD]
  | cons l rest ih =>
    intro buf
    simp only [readLoop, ih l, List.getLastD_cons, List.flatMap_cons,
      List.append_assoc]

/-- Unfolding equation: a present ledger is loaded by the parse loop with
an initially empty buffer. -/
theorem readBadSectors_some (files : List DVDFileData)
    (lines : List (List Char)) :
    readBadSectors files (some lines) = readLoop files lines [] := rfl

/-- In a catalog whose identity triples are unique, `findFile` resolves a
member descriptor's identity to that descriptor. -/
theorem findFile_resolves (files : List DVDFileData) (dat : DVDFileData)
    (hmem : dat ∈ files)
    (huniq : ∀ x ∈ files, x.title = dat.title → x.domain = dat.domain →
      x.number = dat.number → x = dat) :
    findFile files dat.title dat.domain dat.number = some dat := by
  unfold findFile
  cases hfind : List.find? (fun f => decide (f.title = dat.title) &&
      decide (f.domain = dat.domain) && decide (f.number = dat.number)) files with
  | none =>
    exfalso
    have h1 : (List.find? (fun f => decide (f.title = dat.title) &&
        decide (f.domain = dat.domain) &&
        decide (f.number = dat.number)) files).isSome :=
      List.find?_isSome.2 ⟨dat, hmem, by simp⟩
    rw [hfind] at h1
    exact absurd h1 (by simp)
  | some y =>
    have hy := List.find?_some hfind
    have hym := List.mem_of_find?_eq_some hfind
    simp only [Bool.and_eq_true, decide_eq_true_eq] at hy
    rw [huniq y hym hy.1.1 hy.1.2 hy.2]

/-- A line written by `registerBadSectors` for a catalog member (unique
identity, well-formed name) is loaded back as exactly that record. -/
theorem processLine_recordLine (files : List DVDFileData)
    (dat : DVDFileData) (b sz : Nat)
    (hmem : dat ∈ files)
    (huniq : ∀ x ∈ files, x.title = dat.title → x.domain = dat.domain →
      x.number = dat.number → x = dat)
    (hne : dat.name ≠ []) (hcol : ':' ∉ dat.name) :
    processLine files (recordLine dat b sz) =
      ([{ file := dat, start := b, number := sz }], []) := by
  unfold processLine
  rw [parseBadLine_recordLine dat b sz hne hcol]
  simp only [findFile_resolves files dat hmem huniq]

/-! ### Writing the ledger through `registerBadSectors` -/

/-- `registerBadSectors` on a fresh process state opens the ledger in
append mode, writes one line and pushes one list entry. -/
theorem registerBadSectors_init (dat : DVDFileData) (b c : Nat) :
    registerBadSectors ledgerInit dat b c =
      { mode := LMode.appendMode, filePresent := true,
        fileLines := [recordLine dat b c],
        badSectorsList := [{ file := dat, start := b, number := c }] } := by
  rfl

/-- While the handle is open in append mode, `registerBadSectors` appends
one line per call, in call order. -/
theorem foldRegister_append (triples : List (DVDFileData × Nat × Nat)) :
    ∀ st : LedgerState, st.mode = LMode.appendMode →
      (triples.foldl (fun s tr => registerBadSectors s tr.1 tr.2.1 tr.2.2) st) =
        { st with
          fileLines := st.fileLines ++
            triples.map (fun tr => recordLine tr.1 tr.2.1 tr.2.2),
          badSectorsList := st.badSectorsList ++ triples.map
            (fun tr => { file := tr.1, start := tr.2.1, number := tr.2.2 }) } := by
  induction triples with
  | nil => intro st h; simp
  | cons tr rest ih =>
    intro st h
    rw [List.foldl_cons]
    have hreg : registerBadSectors st tr.1 tr.2.1 tr.2.2 =
        { st with
          fileLines := st.fileLines ++ [recordLine tr.1 tr.2.1 tr.2.2],
          badSectorsList := st.badSectorsList ++
            [{ file := tr.1, start := tr.2.1, number := tr.2.2 }] } := by
      have hnc : ¬ st.mode = LMode.closed := by rw [h]; intro hx; cases hx
      simp [registerBadSectors, openBadSectorsFile, hnc, h]
    rw [hreg, ih _ (by simp [h])]
    simp

/-! ### The copy loop -/

/-- A gapless chain of positive-length calls requests a nonnegative total. -/
theorem contiguous_sum_nonneg :
    ∀ (calls : List (Int × Int)) (a : Int),
      contiguous a calls = true → 0 ≤ sumCalls calls := by
  intro calls
  induction calls with
  | nil => intro a _; simp [sumCalls]
  | cons c r ih =>
    intro a h
    simp only [contiguous, Bool.and_eq_true, decide_eq_true_eq] at h
    have hr := ih (a + c.2) h.2
    simp only [sumCalls]
    omega

/-- Every call in a gapless chain requests a positive count. -/
theorem contiguous_mem_pos :
    ∀ (calls : List (Int × Int)) (a : Int),
      contiguous a calls = true → ∀ c ∈ calls, 0 < c.2 := by
  intro calls
  induction calls with
  | nil => intro a _ c hc; cases hc
  | cons c r ih =>
    intro a h x hx
    simp only [contiguous, Bool.and_eq_true, decide_eq_true_eq] at h
    rcases List.mem_cons.1 hx with hx | hx
    · subst hx; exact h.1.2
    · exact ih (a + c.2) h.2 x hx

/-- A gapless chain of calls starting at `a` covers exactly the interval
from `a` to `a` plus the total requested count. -/
theorem contiguous_cover :
    ∀ (calls : List (Int × Int)) (a b : Int),
      contiguous a calls = true →
      (callsCover calls b = true ↔ (a ≤ b ∧ b < a + sumCalls calls)) := by
  intro calls
  induction calls with
  | nil =>
    intro a b _
    simp only [callsCover, List.any_nil, sumCalls]
    constructor
    · intro hx; cases hx
    · intro hx; omega
  | cons c r ih =>
    intro a b h
    simp only [contiguous, Bool.and_eq_true, decide_eq_true_eq] at h
    obtain ⟨⟨hca, hcpos⟩, hrest⟩ := h
    have hsum := contiguous_sum_nonneg r (a + c.2) hrest
    have ihb := ih (a + c.2) b hrest
    simp only [callsCover, List.any_cons, Bool.or_eq_true, Bool.and_eq_true,
      decide_eq_true_eq] at ihb ⊢
    simp only [sumCalls]
    subst hca
    constructor
    · rintro (⟨h1, h2⟩ | h2)
      · omega
      · have := ihb.1 h2
        omega
    · intro hb
      by_cases hc : b < c.1 + c.2
      · exact Or.inl ⟨hb.1, hc⟩
      · exact Or.inr (ihb.2 ⟨by omega, by omega⟩)

/-- When the reader either fails or delivers the full (positive) chunk,
the output events of a call list deliver exactly the requested totals. -/
theorem outBlocks_map_eventOf (oracle : Int → Int → Int)
    (calls : List (Int × Int))
    (hpos : ∀ c ∈ calls, 0 < c.2)
    (h : ∀ c ∈ calls, oracle c.1 c.2 < 0 ∨ oracle c.1 c.2 = c.2) :
    outBlocks (calls.map (eventOf oracle)) = sumCalls calls := by
  induction calls with
  | nil => rfl
  | cons c r ih =>
    have hc := h c (by simp)
    have hcp := hpos c (by simp)
    have ih' := ih (fun x hx => hpos x (by simp [hx])) (fun x hx => h x (by simp [hx]))
    rcases hc with hc | hc
    · have hev : eventOf oracle c = OutEvent.skip c.2 := by
        unfold eventOf
        rw [if_pos hc]
      simp only [List.map_cons, hev, outBlocks, sumCalls, ih']
    · have hnc : ¬ oracle c.1 c.2 < 0 := by omega
      have hev : eventOf oracle c = OutEvent.write c.2 := by
        unfold eventOf
        rw [if_neg hnc, hc]
      simp only [List.map_cons, hev, outBlocks, sumCalls, ih']

/-- Closed form of the `while(size > 0)` loop under a full-or-fail reader:
the loop issues a gapless chain of block-read calls totalling `size`
blocks; each call appends its output event (skip of the requested chunk on
failure, write of the blocks read on success); exactly the failed calls are
registered as bad sectors, in order; the skip counter accumulates exactly
the failed chunks; and the cursor ends at `blk + size`. -/
theorem copyLoop_main (oracle : Int → Int → Int) (rn : Int)
    (hor : ∀ bl n, 0 < n → oracle bl n < 0 ∨ oracle bl n = n) (hrn : 0 < rn) :
    ∀ (fuel : Nat) (s : LoopState), 0 ≤ s.size → s.size.toNat ≤ fuel →
    ∃ calls : List (Int × Int),
      (copyLoop oracle rn fuel s).reads = s.reads ++ calls ∧
      (copyLoop oracle rn fuel s).outEvents =
        s.outEvents ++ calls.map (eventOf oracle) ∧
      (copyLoop oracle rn fuel s).recs =
        s.recs ++ calls.filter (failedCall oracle) ∧
      (copyLoop oracle rn fuel s).skipped =
        s.skipped + sumCalls (calls.filter (failedCall oracle)) ∧
      (copyLoop oracle rn fuel s).blk = s.blk + s.size ∧
      (copyLoop oracle rn fuel s).size = 0 ∧
      contiguous s.blk calls = true ∧
      sumCalls calls = s.size := by
  intro fuel
  induction fuel with
  | zero =>
    intro s h0 hf
    have hz : s.size = 0 := by omega
    refine ⟨[], ?_, ?_, ?_, ?_, ?_, ?_, rfl, by simp [sumCalls, hz]⟩ <;>
      simp [copyLoop, sumCalls, hz]
  | succ fuel ih =>
    intro s h0 hf
    by_cases hpos : s.size > 0
    · have hloop : copyLoop oracle rn (fuel + 1) s =
          copyLoop oracle rn fuel (copyStep oracle rn s) := by
        simp [copyLoop, hpos]
      have hnb1 : 0 < (if s.size > rn then rn else s.size) := by
        split <;> omega
      have hnb2 : (if s.size > rn then rn else s.size) ≤ s.size := by
        split <;> omega
      have hnbneg : ¬ (if s.size > rn then rn else s.size) < 0 := by omega
      rcases hor s.blk (if s.size > rn then rn else s.size) hnb1 with hfail | hsucc
      · -- failed chunk: skip-write, ledger record, count as skipped
        have hstep : copyStep oracle rn s =
            { size := s.size - (if s.size > rn then rn else s.size),
              blk := s.blk + (if s.size > rn then rn else s.size),
              skipped := s.skipped + (if s.size > rn then rn else s.size),
              reads := s.reads ++ [(s.blk, (if s.size > rn then rn else s.size))],
              outEvents := s.outEvents ++
                [OutEvent.skip (if s.size > rn then rn else s.size)],
              recs := s.recs ++
                [(s.blk, (if s.size > rn then rn else s.size))] } := by
          simp only [copyStep]
          rw [if_pos hfail]
        have hfc : failedCall oracle (s.blk, (if s.size > rn then rn else s.size)) =
            true := decide_eq_true hfail
        have hev : eventOf oracle (s.blk, (if s.size > rn then rn else s.size)) =
            OutEvent.skip (if s.size > rn then rn else s.size) := by
          unfold eventOf
          rw [if_pos hfail]
        obtain ⟨calls, hr, he, hc, hk, hb, hz, hcont, hsum⟩ :=
          ih (copyStep oracle rn s) (by rw [hstep]; simp; omega)
            (by rw [hstep]; simp; omega)
        have hcont' : contiguous
            (s.blk + (if s.size > rn then rn else s.size)) calls = true := by
          rw [hstep] at hcont
          exact hcont
        refine ⟨(s.blk, (if s.size > rn then rn else s.size)) :: calls,
          ?_, ?_, ?_, ?_, ?_, ?_, ?_, ?_⟩
        · rw [hloop, hr, hstep]
          simp
        · rw [hloop, he, hstep]
          simp [hev]
        · rw [hloop, hc, hstep]
          simp [List.filter_cons, hfc]
        · rw [hloop, hk, hstep]
          simp only [List.filter_cons, hfc, if_pos, sumCalls]
          simp
          omega
        · rw [hloop, hb, hstep]
          simp
        · rw [hloop, hz]
        · simp [contiguous, hnb1, hcont']
        · simp only [sumCalls]
          rw [hsum, hstep]
          simp
      · -- full chunk read: write through, nothing registered
        have hnlt : ¬ oracle s.blk (if s.size > rn then rn else s.size) < 0 := by
          omega
        have hstep : copyStep oracle rn s =
            { size := s.size - (if s.size > rn then rn else s.size),
              blk := s.blk + (if s.size > rn then rn else s.size),
              skipped := s.skipped,
              reads := s.reads ++ [(s.blk, (if s.size > rn then rn else s.size))],
              outEvents := s.outEvents ++
                [OutEvent.write (if s.size > rn then rn else s.size)],
              recs := s.recs } := by
          simp only [copyStep]
          rw [hsucc, if_neg hnbneg]
        have hfc : failedCall oracle (s.blk, (if s.size > rn then rn else s.size)) =
            false := decide_eq_false hnlt
        have hev : eventOf oracle (s.blk, (if s.size > rn then rn else s.size)) =
            OutEvent.write (if s.size > rn then rn else s.size) := by
          unfold eventOf
          rw [if_neg hnlt, hsucc]
        obtain ⟨calls, hr, he, hc, hk, hb, hz, hcont, hsum⟩ :=
          ih (copyStep oracle rn s) (by rw [hstep]; simp; omega)
            (by rw [hstep]; simp; omega)
        have hcont' : contiguous
            (s.blk + (if s.size > rn then rn else s.size)) calls = true := by
          rw [hstep] at hcont
          exact hcont
        refine ⟨(s.blk, (if s.size > rn then rn else s.size)) :: calls,
          ?_, ?_, ?_, ?_, ?_, ?_, ?_, ?_⟩
        · rw [hloop, hr, hstep]
          simp
        · rw [hloop, he, hstep]
          simp [hev]
        · rw [hloop, hc, hstep]
          simp [List.filter_cons, hfc]
        · rw [hloop, hk, hstep]
          simp [List.filter_cons, hfc]
        · rw [hloop, hb, hstep]
          simp
        · rw [hloop, hz]
        · simp [contiguous, hnb1, hcont']
        · simp only [sumCalls]
          rw [hsum, hstep]
          simp
    · have hz : s.size = 0 := by omega
      have hloop : copyLoop oracle rn (fuel + 1) s = s := by
        simp [copyLoop, hpos]
      refine ⟨[], ?_, ?_, ?_, ?_, ?_, ?_, rfl, by simp [sumCalls, hz]⟩ <;>
        simp [hloop, sumCalls, hz]

/-! ### Small filesystem and list helpers -/

/-- `stat` on a map with one binding in front. -/
theorem statIno_cons (p : Path) (ino : Nat) (fs : FS) (q : Path) :
    statIno ((p, ino) :: fs) q = if p = q then some ino else statIno fs q := by
  by_cases h : p = q
  · rw [if_pos h]
    unfold statIno
    rw [List.find?_cons_of_pos _ (by simp [h])]
  · rw [if_neg h]
    unfold statIno
    rw [List.find?_cons_of_neg _ (by simp [h])]

/-- The defaulted last element of a nonempty list is a member. -/
theorem getLastD_mem_of_ne_nil {α : Type _} (l : List α) (d : α) (h : l ≠ []) :
    l.getLastD d ∈ l := by
  induction l generalizing d with
  | nil => exact absurd rfl h
  | cons a t ih =>
    cases t with
    | nil => simp [List.getLastD]
    | cons b t2 =>
      rw [List.getLastD_cons]
      exact List.mem_cons_of_mem _ (ih a (by simp))

/-! ### C9: idempotence of a complete copy -/

/-- C9 (confirmed).  For a non-duplicate descriptor whose output already
has as many blocks as the source stream, and no `firstBlock` override,
`copyFile` performs no block reads and no output writes and returns `0`:
the `current_size == size` check short-circuits before the loop. -/
theorem C9_complete_copy_is_noop (env : CopyEnv) (dat : DVDFileData) (s : Int)
    (hdup : dat.dupName = none)
    (hsrc : env.sourceSize dat.title dat.domain = some s)
    (hout : env.outSize dat.title dat.domain = s) :
    ∃ out, copyFile env dat 0 (-1) (-1) = Except.ok out ∧
      out.ret = 0 ∧ out.reads = [] ∧ out.outEvents = [] := by
  by_cases hnum : dat.number > 1
  · refine ⟨{ ret := 0, fs := env.fs, opens := [], reads := [],
              outEvents := [], recs := [] }, ?_, rfl, rfl, rfl⟩
    simp [copyFile, hdup, hnum]
  · refine ⟨{ ret := 0, fs := env.fs, opens := [(dat.title, dat.domain)],
              reads := [], outEvents := [], recs := [] }, ?_, rfl, rfl, rfl⟩
    simp [copyFile, hdup, hnum, hsrc, hout]

/-- C9 witness: a 3-block file already fully on disk is not touched. -/
theorem C9_witness :
    ∃ out, copyFile { fs := [], targetDirectory := [],
                      sourceSize := fun _ _ => some 3,
                      outSize := fun _ _ => 3,
                      oracle := fun _ _ => -1 } vtsFile 0 (-1) (-1) =
        Except.ok out ∧
      out.ret = 0 ∧ out.reads = [] ∧ out.outEvents = [] :=
  C9_complete_copy_is_noop _ vtsFile 3 rfl rfl rfl

/-! ### C8: sequence-number coalescing -/

/-- C8 counterexample.  A descriptor with sequence number `2` whose `dup`
pointer is set does not reach the `number > 1` no-op: the duplicate branch
runs first, and here (destination present with a different inode than the
duplicate's destination) `copyFile` throws instead of returning `0`. -/
theorem C8_counterexample :
    ({ title := 1, domain := 0, number := 2, name := ['B'],
       dupName := some ['A'] } : DVDFileData).number > 1 ∧
    copyFile { fs := [(['B'], 5), (['A'], 7)], targetDirectory := [],
               sourceSize := fun _ _ => none, outSize := fun _ _ => 0,
               oracle := fun _ _ => 0 }
      { title := 1, domain := 0, number := 2, name := ['B'],
        dupName := some ['A'] } 0 (-1) (-1) =
      Except.error (CopyError.notExpectedLink ['B'] ['A']) := by decide

/-- C8 (amended).  For every non-duplicate descriptor with sequence number
greater than one, `copyFile` is a complete no-op returning 0: no source
open, no reads, no output events, no ledger records, filesystem unchanged.
(Duplicate descriptors take the hardlink branch first, whatever their
sequence number.) -/
theorem C8_coalesced_noop (env : CopyEnv) (dat : DVDFileData)
    (hdup : dat.dupName = none) (hnum : dat.number > 1)
    (fb bn rn : Int) :
    copyFile env dat fb bn rn =
      Except.ok { ret := 0, fs := env.fs, opens := [], reads := [],
                  outEvents := [], recs := [] } := by
  simp [copyFile, hdup, hnum]

/-- C8 witness: a non-duplicate part-2 descriptor is skipped entirely. -/
theorem C8_witness :
    copyFile { fs := [], targetDirectory := [],
               sourceSize := fun _ _ => some 3, outSize := fun _ _ => 0,
               oracle := fun _ _ => -1 }
      { title := 1, domain := 0, number := 2, name := ['w'], dupName := none }
      0 (-1) (-1) =
      Except.ok { ret := 0, fs := [], opens := [], reads := [],
                  outEvents := [], recs := [] } :=
  C8_coalesced_noop _ _ rfl (by decide) 0 (-1) (-1)

/-! ### C5: duplicate linking -/

/-- C5 counterexample.  With both the destination and the duplicate-of's
destination absent, `copyFile` calls `link(2)`, ignores its failure (the
link target does not exist), and returns success `0`: no
`IntegrityConflict` is raised and afterwards the destination still has no
inode, refuting both the shared-inode postcondition and the
missing-target-fails clause as universally stated. -/
theorem C5_counterexample :
    copyFile { fs := [], targetDirectory := [],
               sourceSize := fun _ _ => none, outSize := fun _ _ => 0,
               oracle := fun _ _ => 0 }
      { title := 1, domain := 0, number := 1, name := ['B'],
        dupName := some ['A'] } 0 (-1) (-1) =
      Except.ok { ret := 0, fs := [], opens := [], reads := [],
                  outEvents := [], recs := [] } ∧
    statIno ([] : FS) ['B'] = none := by decide

/-- C5 (amended).  For a duplicate descriptor: (a) whenever the
duplicate-of's destination exists and `copyFile` returns successfully, the
destination and the duplicate-of's destination share one inode afterwards;
(b) when they already share an inode the call is a no-op returning `0`;
(c) when the destination exists but the duplicate-of's destination is
missing, the call fails with the `IntegrityConflict` error
(`linkTargetAbsent`).  (When destination and link target are both absent,
the failed `link` is ignored and the call "succeeds" — see the
counterexample.) -/
theorem C5_duplicate_linking :
    (∀ (env : CopyEnv) (dat : DVDFileData) (dn : Path) (i : Nat)
       (fb bn rn : Int) (out : CopyOutcome),
       dat.dupName = some dn →
       statIno env.fs (env.targetDirectory ++ dn) = some i →
       copyFile env dat fb bn rn = Except.ok out →
       ∃ j, statIno out.fs (env.targetDirectory ++ dat.name) = some j ∧
            statIno out.fs (env.targetDirectory ++ dn) = some j) ∧
    (∀ (env : CopyEnv) (dat : DVDFileData) (dn : Path) (i : Nat)
       (fb bn rn : Int),
       dat.dupName = some dn →
       statIno env.fs (env.targetDirectory ++ dat.name) = some i →
       statIno env.fs (env.targetDirectory ++ dn) = some i →
       copyFile env dat fb bn rn =
         Except.ok { ret := 0, fs := env.fs, opens := [], reads := [],
                     outEvents := [], recs := [] }) ∧
    (∀ (env : CopyEnv) (dat : DVDFileData) (dn : Path) (i : Nat)
       (fb bn rn : Int),
       dat.dupName = some dn →
       statIno env.fs (env.targetDirectory ++ dat.name) = some i →
       statIno env.fs (env.targetDirectory ++ dn) = none →
       copyFile env dat fb bn rn =
         Except.error (CopyError.linkTargetAbsent
           (env.targetDirectory ++ dat.name) (env.targetDirectory ++ dn))) := by
  refine ⟨?_, ?_, ?_⟩
  · intro env dat dn i fb bn rn out hdn hsrc hok
    cases htgt : statIno env.fs (env.targetDirectory ++ dat.name) with
    | none =>
      have hlink : linkFS env.fs (env.targetDirectory ++ dn)
          (env.targetDirectory ++ dat.name) =
          (env.targetDirectory ++ dat.name, i) :: env.fs := by
        unfold linkFS
        rw [hsrc, htgt]
      simp only [copyFile, hdn, htgt, hlink] at hok
      simp only [Except.ok.injEq] at hok
      subst hok
      refine ⟨i, ?_, ?_⟩
      · rw [statIno_cons]
        simp
      · show statIno ((env.targetDirectory ++ dat.name, i) :: env.fs)
          (env.targetDirectory ++ dn) = some i
        rw [statIno_cons]
        by_cases hts : env.targetDirectory ++ dat.name = env.targetDirectory ++ dn
        · rw [if_pos hts]
        · rw [if_neg hts]
          exact hsrc
    | some st =>
      simp only [copyFile, hdn, htgt, hsrc] at hok
      by_cases hne : i ≠ st
      · rw [if_pos hne] at hok
        cases hok
      · rw [if_neg hne] at hok
        simp only [Except.ok.injEq] at hok
        subst hok
        simp only [not_not] at hne
        subst hne
        exact ⟨i, htgt, hsrc⟩
  · intro env dat dn i fb bn rn hdn htgt hsrc
    simp [copyFile, hdn, htgt, hsrc]
  · intro env dat dn i fb bn rn hdn htgt hsrc
    simp [copyFile, hdn, htgt, hsrc]

/-- C5 witness: destination `['B']` exists (inode 5) but the duplicate-of
destination `['A']` is absent — the call fails with `IntegrityConflict`. -/
theorem C5_witness :
    copyFile { fs := [(['B'], 5)], targetDirectory := [],
               sourceSize := fun _ _ => none, outSize := fun _ _ => 0,
               oracle := fun _ _ => 0 }
      { title := 1, domain := 0, number := 1, name := ['B'],
        dupName := some ['A'] } 0 (-1) (-1) =
      Except.error (CopyError.linkTargetAbsent ([] ++ ['B']) ([] ++ ['A'])) :=
  C5_duplicate_linking.2.2 _ _ ['A'] 5 0 (-1) (-1) rfl (by decide) (by decide)

/-! ### C1: resume behaviour of an incomplete copy -/

/-- C1 counterexample.  Source of 2 blocks, output already holding 1 block
(`K = 1 < N = 2`), no `startBlock` override, fully readable source: the
sole `readBlocks` call is `(blk = 0, nb = 2)` — it re-reads block `0`,
which lies in `[0, K)`, refuting "reads and writes exactly blocks `[K, N)`,
never re-reading any block in `[0, K)`". -/
theorem C1_counterexample :
    copyFile { fs := [], targetDirectory := [],
               sourceSize := fun _ _ => some 2, outSize := fun _ _ => 1,
               oracle := fun _ n => n } vtsFile 0 (-1) (-1) =
      Except.ok { ret := 0, fs := [], opens := [(1, 0)], reads := [(0, 2)],
                  outEvents := [OutEvent.write 2], recs := [] } ∧
    callsCover [(0, 2)] 0 = true := by decide

/-- C1 (amended).  For a non-duplicate, non-coalesced descriptor whose
output holds `K` of `N` blocks with `0 ≤ K < N` and no `startBlock`
override, `copyFile` restarts from the beginning: under a full-or-fail
reader its read calls cover exactly blocks `[0, N)` — the loop starts at
`blk = 0` and the resume offset is used only for the completeness test —
and the output receives exactly `N` blocks. -/
theorem C1_restarts_from_zero (env : CopyEnv) (dat : DVDFileData) (s k : Int)
    (hdup : dat.dupName = none) (hnum : dat.number ≤ 1)
    (hsrc : env.sourceSize dat.title dat.domain = some s)
    (hout : env.outSize dat.title dat.domain = k)
    (hk0 : 0 ≤ k) (hks : k < s)
    (hor : ∀ bl n, 0 < n → env.oracle bl n < 0 ∨ env.oracle bl n = n) :
    ∃ out, copyFile env dat 0 (-1) (-1) = Except.ok out ∧
      (∀ b : Int, callsCover out.reads b = true ↔ (0 ≤ b ∧ b < s)) ∧
      outBlocks out.outEvents = s := by
  have hnum' : ¬ dat.number > 1 := by omega
  have hne : env.outSize dat.title dat.domain ≠ s := by omega
  obtain ⟨calls, hr, he, hc, hk, hb, hz, hcont, hsum⟩ :=
    copyLoop_main env.oracle 128 hor (by norm_num) s.toNat
      { size := s, blk := 0, skipped := 0, reads := [], outEvents := [],
        recs := [] } (by show (0 : Int) ≤ s; omega) (le_refl _)
  have hsum' : sumCalls calls = s := hsum
  simp only [List.nil_append] at hr he hc hk
  refine ⟨{ ret := (copyLoop env.oracle 128 s.toNat
              { size := s, blk := 0, skipped := 0, reads := [],
                outEvents := [], recs := [] }).skipped,
            fs := env.fs, opens := [(dat.title, dat.domain)],
            reads := (copyLoop env.oracle 128 s.toNat
              { size := s, blk := 0, skipped := 0, reads := [],
                outEvents := [], recs := [] }).reads,
            outEvents := (copyLoop env.oracle 128 s.toNat
              { size := s, blk := 0, skipped := 0, reads := [],
                outEvents := [], recs := [] }).outEvents,
            recs := ((copyLoop env.oracle 128 s.toNat
              { size := s, blk := 0, skipped := 0, reads := [],
                outEvents := [], recs := [] }).recs).map
              (fun r => (dat, r.1, r.2)) }, ?_, ?_, ?_⟩
  · simp [copyFile, hdup, hnum', hsrc, hne]
  · intro b
    show callsCover (copyLoop env.oracle 128 s.toNat
      { size := s, blk := 0, skipped := 0, reads := [], outEvents := [],
        recs := [] }).reads b = true ↔ _
    rw [hr, contiguous_cover calls 0 b hcont, hsum']
    constructor
    · intro hx
      exact ⟨hx.1, by omega⟩
    · intro hx
      exact ⟨hx.1, by omega⟩
  · show outBlocks (copyLoop env.oracle 128 s.toNat
      { size := s, blk := 0, skipped := 0, reads := [], outEvents := [],
        recs := [] }).outEvents = s
    rw [he, outBlocks_map_eventOf env.oracle calls
      (contiguous_mem_pos calls 0 hcont)
      (fun c hcm => hor c.1 c.2 (contiguous_mem_pos calls 0 hcont c hcm)),
      hsum']

/-- C1 amended-claim witness: the concrete `K = 1`, `N = 2` run covers
blocks 0 and 1 and writes 2 blocks. -/
theorem C1_witness :
    ∃ out, copyFile { fs := [], targetDirectory := [],
                      sourceSize := fun _ _ => some 2,
                      outSize := fun _ _ => 1,
                      oracle := fun _ n => n } vtsFile 0 (-1) (-1) =
        Except.ok out ∧
      (∀ b : Int, callsCover out.reads b = true ↔ (0 ≤ b ∧ b < 2)) ∧
      outBlocks out.outEvents = 2 :=
  C1_restarts_from_zero _ vtsFile 2 1 rfl (by decide) rfl rfl (by decide)
    (by decide) (fun bl n h => Or.inr rfl)

/-! ### C3: failure accounting in the copy loop -/

/-- C3 (confirmed).  In a run of the copy loop under a full-or-fail
reader: the output trace is exactly one event per read call — a skip of
the full requested chunk `N` for each failed call, a write for each
successful one; the `registerBadSectors` invocations are exactly the
failed calls `(file, B, N)`, one each, in order; the returned skip count
is the sum of the failed chunks; the calls advance the cursor gaplessly
from 0; the output receives exactly the expected `size` blocks; and the
call returns `Except.ok` — a read failure never terminates the run. -/
theorem C3_failure_accounting (env : CopyEnv) (dat : DVDFileData) (s : Int)
    (hdup : dat.dupName = none) (hnum : dat.number ≤ 1)
    (hsrc : env.sourceSize dat.title dat.domain = some s) (hsz : 0 < s)
    (hne : env.outSize dat.title dat.domain ≠ s)
    (hor : ∀ bl n, 0 < n → env.oracle bl n < 0 ∨ env.oracle bl n = n) :
    ∃ out, copyFile env dat 0 (-1) (-1) = Except.ok out ∧
      out.outEvents = out.reads.map (eventOf env.oracle) ∧
      out.recs = (out.reads.filter (failedCall env.oracle)).map
        (fun c => (dat, c.1, c.2)) ∧
      out.ret = sumCalls (out.reads.filter (failedCall env.oracle)) ∧
      contiguous 0 out.reads = true ∧
      outBlocks out.outEvents = s := by
  have hnum' : ¬ dat.number > 1 := by omega
  obtain ⟨calls, hr, he, hc, hk, hb, hz, hcont, hsum⟩ :=
    copyLoop_main env.oracle 128 hor (by norm_num) s.toNat
      { size := s, blk := 0, skipped := 0, reads := [], outEvents := [],
        recs := [] } (by show (0 : Int) ≤ s; omega) (le_refl _)
  have hsum' : sumCalls calls = s := hsum
  simp only [List.nil_append] at hr he hc hk
  refine ⟨{ ret := (copyLoop env.oracle 128 s.toNat
              { size := s, blk := 0, skipped := 0, reads := [],
                outEvents := [], recs := [] }).skipped,
            fs := env.fs, opens := [(dat.title, dat.domain)],
            reads := (copyLoop env.oracle 128 s.toNat
              { size := s, blk := 0, skipped := 0, reads := [],
                outEvents := [], recs := [] }).reads,
            outEvents := (copyLoop env.oracle 128 s.toNat
              { size := s, blk := 0, skipped := 0, reads := [],
                outEvents := [], recs := [] }).outEvents,
            recs := ((copyLoop env.oracle 128 s.toNat
              { size := s, blk := 0, skipped := 0, reads := [],
                outEvents := [], recs := [] }).recs).map
              (fun r => (dat, r.1, r.2)) }, ?_, ?_, ?_, ?_, ?_, ?_⟩
  · simp [copyFile, hdup, hnum', hsrc, hne]
  · show (copyLoop env.oracle 128 s.toNat
      { size := s, blk := 0, skipped := 0, reads := [], outEvents := [],
        recs := [] }).outEvents = _
    rw [he, hr]
  · show ((copyLoop env.oracle 128 s.toNat
      { size := s, blk := 0, skipped := 0, reads := [], outEvents := [],
        recs := [] }).recs).map (fun r => (dat, r.1, r.2)) = _
    rw [hc, hr]
  · show (copyLoop env.oracle 128 s.toNat
      { size := s, blk := 0, skipped := 0, reads := [], outEvents := [],
        recs := [] }).skipped = _
    rw [hk, hr]
    simp
  · show contiguous 0 (copyLoop env.oracle 128 s.toNat
      { size := s, blk := 0, skipped := 0, reads := [], outEvents := [],
        recs := [] }).reads = true
    rw [hr]
    exact hcont
  · show outBlocks (copyLoop env.oracle 128 s.toNat
      { size := s, blk := 0, skipped := 0, reads := [], outEvents := [],
        recs := [] }).outEvents = s
    rw [he, outBlocks_map_eventOf env.oracle calls
      (contiguous_mem_pos calls 0 hcont)
      (fun c hcm => hor c.1 c.2 (contiguous_mem_pos calls 0 hcont c hcm)),
      hsum']

/-- C3 witness: a 3-block source that always fails produces one skip of 3
blocks, one record `(vtsFile, 0, 3)`, returns 3 skipped, and the output
still reaches 3 blocks. -/
theorem C3_witness :
    ∃ out, copyFile { fs := [], targetDirectory := [],
                      sourceSize := fun _ _ => some 3,
                      outSize := fun _ _ => 0,
                      oracle := fun _ _ => -1 } vtsFile 0 (-1) (-1) =
        Except.ok out ∧
      out.outEvents = out.reads.map (eventOf (fun _ _ => -1)) ∧
      out.recs = (out.reads.filter (failedCall (fun _ _ => -1))).map
        (fun c => (vtsFile, c.1, c.2)) ∧
      out.ret = sumCalls (out.reads.filter (failedCall (fun _ _ => -1))) ∧
      contiguous 0 out.reads = true ∧
      outBlocks out.outEvents = 3 :=
  C3_failure_accounting _ vtsFile 3 rfl (by decide) rfl (by decide) (by decide)
    (fun bl n h => Or.inl (by show (-1 : Int) < 0; decide))

/-! ### C2: repair range restriction -/

/-- C2 (code bug).  The repair loop does invoke the engine with
`startBlock = record.start`, `blockCount = record.count`, `chunkSize = 1`
(first conjunct: the single loaded record `(vtsFile, 1, 1)` produces
exactly the invocation `(vtsFile, 1, 1, 1)`).  But that invocation does
not stay inside `[start, start + count) = [1, 2)`: `firstBlock` only
replaces `current_size` in the completeness test, `blockNumber` is never
used, and the loop starts at `blk = 0` — so the engine re-reads the whole
3-block file, blocks 0, 1 and 2 (second conjunct), instead of block 1
only. -/
theorem C2_repair_rereads_whole_file :
    secondPassLoop repairEnv 2 [{ file := vtsFile, start := 1, number := 1 }]
        0 0 [] =
      ([(vtsFile, 1, 1, 1)], 0,
       [{ file := vtsFile, start := 1, number := 1 }]) ∧
    copyFile repairEnv vtsFile 1 1 1 =
      Except.ok { ret := 0, fs := [], opens := [(1, 0)],
                  reads := [(0, 1), (1, 1), (2, 1)],
                  outEvents := [OutEvent.write 1, OutEvent.write 1,
                                OutEvent.write 1],
                  recs := [] } := by decide

/-! ### C6: re-recording during the repair pass -/

/-- C6 (code bug).  At the start of a repair pass `readBadSectors` opens
the ledger handle in read mode; `openBadSectorsFile` ignores the append
request of a later `registerBadSectors` because the handle is no longer
`NULL`, so the `fprintf` goes to a read-mode stream and appends nothing:
after registering a still-failing sub-range `(vtsFile, 1, 1)` the ledger
file still holds only its original line, while the in-memory list grew
(and also shows the loaded record duplicated by the `feof` bug). -/
theorem C6_repair_record_not_persisted :
    (readBadSectorsRun [vtsFile] repairLedger).mode = LMode.readMode ∧
    (registerBadSectors (readBadSectorsRun [vtsFile] repairLedger)
        vtsFile 1 1).fileLines = [recordLine vtsFile 0 3] ∧
    (registerBadSectors (readBadSectorsRun [vtsFile] repairLedger)
        vtsFile 1 1).badSectorsList =
      [{ file := vtsFile, start := 0, number := 3 },
       { file := vtsFile, start := 0, number := 3 },
       { file := vtsFile, start := 1, number := 1 }] := by decide

/-! ### C7: ledger loading is never fatal -/

/-- C7 (confirmed).  Loading an absent ledger returns the empty sequence
(the success case); a line the regex does not match produces one
diagnostic and no record; a parsed line whose identity has no exact
catalog match produces one diagnostic and no record; and loading is a
total per-line fold — every line is processed independently and
processing always continues to the next line (the trailing term is the
re-processing of the final buffer caused by the `feof` test). -/
theorem C7_loading_never_fatal (files : List DVDFileData) :
    readBadSectors files none = ([], []) ∧
    (∀ l, parseBadLine l = none →
      processLine files l = ([], [Diag.parseError l])) ∧
    (∀ l t d n b sz, parseBadLine l = some (t, d, n, b, sz) →
      findFile files t d n = none →
      processLine files l = ([], [Diag.noMatch t d n])) ∧
    (∀ lines, readBadSectors files (some lines) =
      ((lines.flatMap (fun l => (processLine files l).1)) ++
         (processLine files (lines.getLastD [])).1,
       (lines.flatMap (fun l => (processLine files l).2)) ++
         (processLine files (lines.getLastD [])).2)) := by
  refine ⟨rfl, ?_, ?_, ?_⟩
  · intro l hl
    simp [processLine, hl]
  · intro l t d n b sz hl hf
    simp [processLine, hl, hf]
  · intro lines
    exact readLoop_spec files lines []

/-- C7 witness: absent file loads empty; a colon-free line is reported as
a parse error; a well-formed line for an empty catalog is reported as
unresolved; both are dropped. -/
theorem C7_witness :
    readBadSectors [] none = ([], []) ∧
    processLine [] ['x'] = ([], [Diag.parseError ['x']]) ∧
    processLine [] (recordLine vtsFile 0 3) = ([], [Diag.noMatch 1 0 1]) :=
  ⟨(C7_loading_never_fatal []).1,
   (C7_loading_never_fatal []).2.1 ['x'] (by decide),
   (C7_loading_never_fatal []).2.2.1 (recordLine vtsFile 0 3) 1 0 1 0 3
     (by decide) (by decide)⟩

/-! ### C10: the final ledger line is loaded twice -/

/-- C10 (confirmed).  For a ledger whose final line parses and resolves to
`dat`, the loaded list is the per-line records followed by one extra copy
of the final record: the loop tests `feof` before `fgets`, the final
`fgets` fails at end-of-file leaving the buffer unchanged, and the stale
buffer is parsed again — so the loaded sequence is one entry longer than
the per-line (written) sequence. -/
theorem C10_final_line_loaded_twice (files : List DVDFileData)
    (lines : List (List Char)) (lst : List Char)
    (t d n b sz : Nat) (dat : DVDFileData)
    (hlast : lines.getLastD [] = lst)
    (hparse : parseBadLine lst = some (t, d, n, b, sz))
    (hfind : findFile files t d n = some dat) :
    (readBadSectors files (some lines)).1 =
      (lines.flatMap (fun l => (processLine files l).1)) ++
        [{ file := dat, start := b, number := sz }] ∧
    (readBadSectors files (some lines)).1.length =
      (lines.flatMap (fun l => (processLine files l).1)).length + 1 := by
  have hproc : processLine files lst =
      ([{ file := dat, start := b, number := sz }], []) := by
    simp [processLine, hparse, hfind]
  have h1 : (readBadSectors files (some lines)).1 =
      (lines.flatMap (fun l => (processLine files l).1)) ++
        (processLine files (lines.getLastD [])).1 := by
    show (readLoop files lines []).1 = _
    rw [readLoop_spec files lines []]
  rw [h1, hlast, hproc]
  exact ⟨rfl, by simp⟩

/-- C10 witness: a one-line ledger for `vtsFile` loads as two copies of
its single record. -/
theorem C10_witness :
    (readBadSectors [vtsFile] (some [recordLine vtsFile 0 3])).1 =
      ([recordLine vtsFile 0 3].flatMap
        (fun l => (processLine [vtsFile] l).1)) ++
        [{ file := vtsFile, start := 0, number := 3 }] ∧
    (readBadSectors [vtsFile] (some [recordLine vtsFile 0 3])).1.length =
      ([recordLine vtsFile 0 3].flatMap
        (fun l => (processLine [vtsFile] l).1)).length + 1 :=
  C10_final_line_loaded_twice [vtsFile] [recordLine vtsFile 0 3]
    (recordLine vtsFile 0 3) 1 0 1 0 3 vtsFile (by decide)
    (by decide) (by decide)

/-! ### C4: ledger round trip as a set -/

/-- C4 (confirmed, set semantics).  Recording any sequence of
`(descriptor, start, count)` triples through `registerBadSectors` (from a
fresh process, so the handle opens in append mode) and loading the
resulting ledger back with `readBadSectors` reproduces exactly the same
set of records, provided every descriptor is in the catalog, catalog
identities are unique, and file names are nonempty and colon-free (as
every `fileName()` is).  (As a *sequence* the load carries one duplicated
final entry — see the C10 theorem — which is invisible to the set.) -/
theorem C4_roundtrip_set (files : List DVDFileData)
    (triples : List (DVDFileData × Nat × Nat))
    (huniq : ∀ x ∈ files, ∀ y ∈ files, x.title = y.title →
      x.domain = y.domain → x.number = y.number → x = y)
    (hmem : ∀ tr ∈ triples, tr.1 ∈ files)
    (hname : ∀ tr ∈ triples, tr.1.name ≠ [] ∧ ':' ∉ tr.1.name) :
    ∀ x : BadSectors,
      (x ∈ (readBadSectors files (ledgerFileOf
        (triples.foldl (fun st tr => registerBadSectors st tr.1 tr.2.1 tr.2.2)
          ledgerInit))).1 ↔
      ∃ tr ∈ triples,
        x = { file := tr.1, start := tr.2.1, number := tr.2.2 }) := by
  have hline : ∀ tr ∈ triples,
      processLine files (recordLine tr.1 tr.2.1 tr.2.2) =
        ([{ file := tr.1, start := tr.2.1, number := tr.2.2 }], []) := by
    intro tr htr
    exact processLine_recordLine files tr.1 tr.2.1 tr.2.2 (hmem tr htr)
      (fun x hx h1 h2 h3 => huniq x hx tr.1 (hmem tr htr) h1 h2 h3)
      (hname tr htr).1 (hname tr htr).2
  have hflat : ∀ ts : List (DVDFileData × Nat × Nat),
      (∀ u ∈ ts, processLine files (recordLine u.1 u.2.1 u.2.2) =
        ([{ file := u.1, start := u.2.1, number := u.2.2 }], [])) →
      ((ts.map (fun u => recordLine u.1 u.2.1 u.2.2)).flatMap
        (fun l => (processLine files l).1)) =
      ts.map (fun u => { file := u.1, start := u.2.1, number := u.2.2 }) := by
    intro ts
    induction ts with
    | nil => intro _; rfl
    | cons u us ih =>
      intro hall
      simp only [List.map_cons, List.flatMap_cons, hall u (by simp),
        ih (fun v hv => hall v (by simp [hv]))]
      rfl
  cases triples with
  | nil =>
    intro x
    simp [ledgerInit, ledgerFileOf, readBadSectors]
  | cons tr rest =>
    intro x
    have hfold : ((tr :: rest).foldl
        (fun st u => registerBadSectors st u.1 u.2.1 u.2.2) ledgerInit) =
        { mode := LMode.appendMode, filePresent := true,
          fileLines := recordLine tr.1 tr.2.1 tr.2.2 ::
            rest.map (fun u => recordLine u.1 u.2.1 u.2.2),
          badSectorsList :=
            { file := tr.1, start := tr.2.1, number := tr.2.2 } ::
            rest.map (fun u =>
              { file := u.1, start := u.2.1, number := u.2.2 }) } := by
      rw [List.foldl_cons, registerBadSectors_init,
        foldRegister_append rest _ rfl]
      simp
    have hlf : ledgerFileOf
        { mode := LMode.appendMode, filePresent := true,
          fileLines := recordLine tr.1 tr.2.1 tr.2.2 ::
            rest.map (fun u => recordLine u.1 u.2.1 u.2.2),
          badSectorsList :=
            { file := tr.1, start := tr.2.1, number := tr.2.2 } ::
            rest.map (fun u =>
              { file := u.1, start := u.2.1, number := u.2.2 }) } =
        some ((tr :: rest).map (fun u => recordLine u.1 u.2.1 u.2.2)) := rfl
    rw [hfold, hlf, readBadSectors_some]
    have hspec1 : (readLoop files
        ((tr :: rest).map (fun u => recordLine u.1 u.2.1 u.2.2)) []).1 =
        (((tr :: rest).map (fun u => recordLine u.1 u.2.1 u.2.2)).flatMap
          (fun l => (processLine files l).1)) ++
        (processLine files (((tr :: rest).map
          (fun u => recordLine u.1 u.2.1 u.2.2)).getLastD [])).1 := by
      rw [readLoop_spec]
    rw [hspec1]
    have hlastmem : ((tr :: rest).map
        (fun u => recordLine u.1 u.2.1 u.2.2)).getLastD [] ∈
        (tr :: rest).map (fun u => recordLine u.1 u.2.1 u.2.2) :=
      getLastD_mem_of_ne_nil _ _ (by simp)
    obtain ⟨u, hu, hline_u⟩ := List.mem_map.1 hlastmem
    have hext : (processLine files
        (((tr :: rest).map (fun v => recordLine v.1 v.2.1 v.2.2)).getLastD
          [])).1 = [{ file := u.1, start := u.2.1, number := u.2.2 }] := by
      rw [← hline_u, hline u hu]
    rw [hext, hflat (tr :: rest) hline]
    constructor
    · intro hx
      rcases List.mem_append.1 hx with hx | hx
      · obtain ⟨v, hv, hvx⟩ := List.mem_map.1 hx
        exact ⟨v, hv, hvx.symm⟩
      · simp only [List.mem_singleton] at hx
        exact ⟨u, hu, hx⟩
    · rintro ⟨v, hv, hvx⟩
      exact List.mem_append.2 (Or.inl (List.mem_map.2 ⟨v, hv, hvx.symm⟩))

/-- C4 witness: one triple round-trips through the ledger. -/
theorem C4_witness :
    ({ file := vtsFile, start := 0, number := 3 } : BadSectors) ∈
      (readBadSectors [vtsFile] (ledgerFileOf
        ([(vtsFile, 0, 3)].foldl
          (fun st tr => registerBadSectors st tr.1 tr.2.1 tr.2.2)
          ledgerInit))).1 ↔
    ∃ tr ∈ [(vtsFile, 0, 3)],
      ({ file := vtsFile, start := 0, number := 3 } : BadSectors) =
        { file := tr.1, start := tr.2.1, number := tr.2.2 } :=
  C4_roundtrip_set [vtsFile] [(vtsFile, 0, 3)] (by decide) (by decide)
    (by decide) { file := vtsFile, start := 0, number := 3 }

end DVDCopy
